import Mathlib

/-!
Verification of the restaurant-menu-summarizer core against its
natural-language specification.

The TypeScript sources are shallowly embedded below:
 - JS string operations are modelled over `List Char` (one `Char` per code
   point; exact for the Basic Multilingual Plane text the classifier's
   keyword tables draw from),
 - JS numbers are modelled as `Rat` (exact for every value the claims touch),
 - fallible code returns `Except`,
 - the SQLite store behind the cache service is modelled as an explicit
   list of rows, and
 - the OpenAI conversation of the extraction loop is modelled as a script
   of service turns whose textual content is abstracted to its JSON parse
   result (`Option JVal`, `none` meaning the text does not parse).
-/

namespace MenuSummarizer

/-! ## JS string primitives -/

/-- JS regex `\s` / `String.prototype.trim` whitespace, restricted to the
characters that can actually occur in scraped page text (the scraper
collapses all whitespace runs to single spaces). -/
def isJsSpace (c : Char) : Bool :=
  c = ' ' || c = '\t' || c = '\n' || c = '\r' || c = '\x0b' || c = '\x0c'

/-- JS `String.prototype.toLowerCase`, per code point, covering ASCII,
the Latin-1 supplement and Latin Extended-A (everything Czech text uses);
identity elsewhere.  (U+0130 is excluded: JS lower-cases it to a two-code-point
string, which never occurs in this repository's data.) -/
def jsToLower (c : Char) : Char :=
  let n := c.toNat
  if 65 ≤ n ∧ n ≤ 90 then Char.ofNat (n + 32)
  else if 192 ≤ n ∧ n ≤ 222 ∧ n ≠ 215 then Char.ofNat (n + 32)
  else if (0x100 ≤ n ∧ n ≤ 0x137 ∧ n % 2 = 0 ∧ n ≠ 0x130) ∨
          (0x139 ≤ n ∧ n ≤ 0x148 ∧ n % 2 = 1) ∨
          (0x14A ≤ n ∧ n ≤ 0x177 ∧ n % 2 = 0) ∨
          (n = 0x179 ∨ n = 0x17B ∨ n = 0x17D) then Char.ofNat (n + 1)
  else c

/-- `pat` occurs at the head of `hay`. -/
def headMatch : List Char → List Char → Bool
  | [], _ => true
  | _ :: _, [] => false
  | p :: ps, h :: hs => p = h && headMatch ps hs

/-- JS `String.prototype.includes`: `pat` occurs somewhere in `hay`. -/
def containsSub (hay pat : List Char) : Bool :=
  match hay with
  | [] => headMatch pat []
  | _ :: hs => headMatch pat hay || containsSub hs pat

/-- JS `String.prototype.indexOf`: index of the first occurrence of `pat`
in `hay` (`none` models `-1`). -/
def indexOfSub (hay pat : List Char) : Option Nat :=
  match hay with
  | [] => if headMatch pat [] then some 0 else none
  | _ :: hs =>
    if headMatch pat hay then some 0
    else (indexOfSub hs pat).map (· + 1)

/-- JS `String.prototype.trim` (drop leading and trailing whitespace). -/
def jsTrim (s : String) : String :=
  String.mk (((s.data.dropWhile isJsSpace).reverse.dropWhile isJsSpace).reverse)

/-- Numeric value of a digit string (the effect of `parseInt` on a
non-empty all-digit string). -/
def natOfDigits (ds : List Char) : Nat :=
  ds.foldl (fun acc c => acc * 10 + (c.toNat - 48)) 0

/-! ## Price normalizer (`LLMService.normalizePrice`) -/

/-- The runtime type of the `raw` argument of `normalizePrice`:
`string | number | null | undefined`. -/
inductive PriceInput where
  | null
  | undefined
  | num (q : ℚ)
  | str (s : String)

/-- JS `parseFloat` on a string drawn from the alphabet
`{digits, '.', ','}` (the only alphabet `normalizePrice` can produce):
parse the longest leading `digits [. digits]` prefix; `none` models `NaN`. -/
def jsParseFloat (cs : List Char) : Option ℚ :=
  let intPart := cs.takeWhile Char.isDigit
  let rest := cs.drop intPart.length
  match rest with
  | '.' :: rest2 =>
    let fracPart := rest2.takeWhile Char.isDigit
    if intPart = [] ∧ fracPart = [] then none
    else some (mkRat (natOfDigits intPart * 10 ^ fracPart.length + natOfDigits fracPart)
                     (10 ^ fracPart.length))
  | _ => if intPart = [] then none else some (natOfDigits intPart : ℚ)

/-- JS `String.prototype.replace(",", ".")`: only the first comma is
replaced. -/
def replaceFirstComma : List Char → List Char
  | [] => []
  | c :: rest => if c = ',' then '.' :: rest else c :: replaceFirstComma rest

/-- `LLMService.normalizePrice` (src/unnamed/part_005, lines 400-420). -/
def normalizePrice (raw : PriceInput) : ℚ :=
  match raw with
  | .null => 0
  | .undefined => 0
  | .num q => q
  | .str s =>
    let cleaned := s.data.filter (fun c => c.isDigit || c = ',' || c = '.')
    let normalized := replaceFirstComma cleaned
    match jsParseFloat normalized with
    | none => 0
    | some q => q

/-- Modelled from the spec sentence for the string rule of the price
normalizer: stripped of every character except digits, comma, and period;
first comma converted to a period; parsed as a floating-point number;
`0` on parse failure. -/
def specNormalizeString (s : String) : ℚ :=
  let stripped := s.data.filter (fun c => c.isDigit || c = ',' || c = '.')
  match jsParseFloat (replaceFirstComma stripped) with
  | none => 0
  | some q => q

/-- C5: the price normalizer maps null and undefined to 0, passes
numbers through unchanged, applies the strip/first-comma/parse rule to
strings with 0 on parse failure, and on the concrete examples:
"145,50" to 145.5, "145 Kč" to 145, null to 0, "garbage" to 0. -/
theorem c5_normalizePrice_spec :
    normalizePrice .null = 0 ∧
    normalizePrice .undefined = 0 ∧
    (∀ q : ℚ, normalizePrice (.num q) = q) ∧
    (∀ s : String, normalizePrice (.str s) = specNormalizeString s) ∧
    normalizePrice (.str "145,50") = (145.5 : ℚ) ∧
    normalizePrice (.str "145 Kč") = 145 ∧
    normalizePrice (.str "garbage") = 0 := by
  refine ⟨rfl, rfl, fun q => rfl, fun s => rfl, ?_, by decide, by decide⟩
  have h : normalizePrice (.str "145,50") = mkRat 291 2 := by decide
  rw [h, Rat.mkRat_eq_div]
  norm_num

/-! ## Daily-menu classifier (`MenuService.hasDailyMenuIndicators`) -/

/-- The five daily-menu phrases, in the fixed priority order of the source. -/
def dailyKeywords : List (List Char) :=
  ["polední menu".data, "denní menu".data, "menu dne".data,
   "obědové menu".data, "týdenní menu".data]

/-- The fixed 8-term navigation vocabulary. -/
def navKeywords : List (List Char) :=
  ["úvod".data, "kontakty".data, "o nás".data, "rezervace".data,
   "ubytování".data, "galerie".data, "akce".data, "reference".data]

/-- The fixed 7 Czech weekday names. -/
def weekdays : List (List Char) :=
  ["pondělí".data, "úterý".data, "středa".data, "čtvrtek".data,
   "pátek".data, "sobota".data, "neděle".data]

/-- The keyword-locate loop of `hasDailyMenuIndicators`: position of the
first phrase, in priority order, that occurs in the text. -/
def firstFoundPos : List (List Char) → List Char → Option Nat
  | [], _ => none
  | k :: ks, hay =>
    match indexOfSub hay k with
    | some p => some p
    | none => firstFoundPos ks hay

/-- `MenuService.isMostlyNavigation`: 3 or more distinct navigation terms
occur in the context window. -/
def isMostlyNavigation (context : List Char) : Bool :=
  (navKeywords.foldl (fun acc k => if containsSub context k then acc + 1 else acc) 0) ≥ 3

/-- JS regex `\d{1,2}\.` matched at the head of the input (greedy with
backtracking); returns the rest of the input after the match. -/
def consumeD12Dot : List Char → Option (List Char)
  | c1 :: c2 :: c3 :: rest =>
    if c1.isDigit then
      if c2.isDigit then (if c3 = '.' then some rest else none)
      else (if c2 = '.' then some (c3 :: rest) else none)
    else none
  | [c1, c2] => if c1.isDigit && c2 = '.' then some [] else none
  | _ => none

/-- JS regex `\d{1,2}\.\s?\d{1,2}\.` matched at the head of the input. -/
def dateMatchAt (cs : List Char) : Bool :=
  match consumeD12Dot cs with
  | none => false
  | some rest =>
    match rest with
    | c :: rest2 => if isJsSpace c then (consumeD12Dot rest2).isSome else (consumeD12Dot rest).isSome
    | [] => false

/-- JS `regex.test` for `\d{1,2}\.\s?\d{1,2}\.`: a match exists somewhere. -/
def dateMatchSomewhere : List Char → Bool
  | [] => false
  | c :: rest => dateMatchAt (c :: rest) || dateMatchSomewhere rest

/-- One step of the global scan for `\d{2,3}\s*(?:kč|,-)` (the text is
already lower-cased, so the `i` flag is immaterial): match at the head of
the input and return the numeric value of the digits (the effect of
`parseInt(price.replace(/[^\d]/g, ""), 10)` on the token) together with
the rest of the input after the match.  A position opening a run of 4 or
more digits cannot match (greedy `\d{2,3}` with backtracking fails). -/
def priceTokenAt (cs : List Char) : Option (Nat × List Char) :=
  let ds := cs.takeWhile Char.isDigit
  if ds.length = 2 ∨ ds.length = 3 then
    let rest := (cs.drop ds.length).dropWhile isJsSpace
    match rest with
    | 'k' :: 'č' :: r => some (natOfDigits ds, r)
    | ',' :: '-' :: r => some (natOfDigits ds, r)
    | _ => none
  else none

/-- Fuel-driven worker for the global price scan; the fuel is the length
of the input, which suffices because every step consumes at least one
character. -/
def scanPricesGo : Nat → List Char → List Nat
  | 0, _ => []
  | _ + 1, [] => []
  | fuel + 1, c :: rest =>
    match priceTokenAt (c :: rest) with
    | some (n, r) => n :: scanPricesGo fuel r
    | none => scanPricesGo fuel rest

/-- JS `context.match(/\d{2,3}\s*(?:kč|,-)/gi)` followed by
`parseInt` of the digits of each token: the numeric values of all
(non-overlapping, left-to-right) matches. -/
def scanPrices (cs : List Char) : List Nat :=
  scanPricesGo cs.length cs

/-- `MenuService.hasStrongDailySignal`. -/
def hasStrongDailySignal (context : List Char) : Bool :=
  weekdays.any (fun w => containsSub context w) ||
  dateMatchSomewhere context ||
  (decide ((scanPrices context).length ≥ 2) &&
   decide (((scanPrices context).filter (fun n => 60 ≤ n && n ≤ 200)).length ≥ 2)) ||
  ((containsSub context "polévka".data || containsSub context "vývar".data) &&
   (containsSub context "řízek".data || containsSub context "svíčková".data ||
    containsSub context "panenka".data || containsSub context "guláš".data ||
    containsSub context "kuře".data))

/-- `MenuService.hasDailyMenuIndicators` (src/unnamed/part_007,
lines 220-332). -/
def hasDailyMenuIndicators (text : String) : Bool :=
  let lowerText := text.data.map jsToLower
  match firstFoundPos dailyKeywords lowerText with
  | none => false
  | some keywordPosition =>
    let contextStart := keywordPosition - 400
    let contextEnd := min lowerText.length (keywordPosition + 400)
    let context := (lowerText.drop contextStart).take (contextEnd - contextStart)
    if isMostlyNavigation context then false
    else hasStrongDailySignal context

/-- Modelled from the spec: the classifier as the claim words it — the
first phrase in the fixed priority order that occurs determines the match
position; the ±400-character window around that match must contain fewer
than 3 distinct navigation terms and at least one strong signal (weekday,
date pattern, two or more in-range price tokens, or soup/main-dish
co-occurrence). -/
def specHasDailyMenuIndicators (text : String) : Bool :=
  let lower := text.data.map jsToLower
  match dailyKeywords.findSome? (fun k => indexOfSub lower k) with
  | none => false
  | some pos =>
    let window := (lower.drop (pos - 400)).take (min lower.length (pos + 400) - (pos - 400))
    decide ((navKeywords.countP (fun k => containsSub window k)) < 3) &&
    (weekdays.any (fun w => containsSub window w) ||
     dateMatchSomewhere window ||
     decide (((scanPrices window).filter (fun n => 60 ≤ n && n ≤ 200)).length ≥ 2) ||
     ((containsSub window "polévka".data || containsSub window "vývar".data) &&
      (containsSub window "řízek".data || containsSub window "svíčková".data ||
       containsSub window "panenka".data || containsSub window "guláš".data ||
       containsSub window "kuře".data)))

theorem foldl_countIf (p : List Char → Bool) (l : List (List Char)) (n : Nat) :
    l.foldl (fun acc k => if p k then acc + 1 else acc) n = n + l.countP p := by
  induction l generalizing n with
  | nil => simp
  | cons k ks ih =>
    cases hp : p k with
    | false => simp [List.countP_cons, hp, ih]
    | true =>
      simp [List.countP_cons, hp, ih]
      omega

theorem firstFoundPos_eq (ks : List (List Char)) (hay : List Char) :
    firstFoundPos ks hay = ks.findSome? (fun k => indexOfSub hay k) := by
  induction ks with
  | nil => rfl
  | cons k ks ih =>
    rw [firstFoundPos, List.findSome?_cons]
    cases indexOfSub hay k <;> simp [ih]

theorem price_conjunct (p : Nat → Bool) (l : List Nat) :
    (decide (l.length ≥ 2) && decide ((l.filter p).length ≥ 2)) =
      decide ((l.filter p).length ≥ 2) := by
  by_cases h : (l.filter p).length ≥ 2
  · have h2 : l.length ≥ 2 := le_trans h (List.length_filter_le p l)
    simp [h, h2]
  · simp [h]

theorem window_case (ctx : List Char) :
    (if isMostlyNavigation ctx then false else hasStrongDailySignal ctx) =
    (decide ((navKeywords.countP (fun k => containsSub ctx k)) < 3) &&
     (weekdays.any (fun w => containsSub ctx w) ||
      dateMatchSomewhere ctx ||
      decide (((scanPrices ctx).filter (fun n => 60 ≤ n && n ≤ 200)).length ≥ 2) ||
      ((containsSub ctx "polévka".data || containsSub ctx "vývar".data) &&
       (containsSub ctx "řízek".data || containsSub ctx "svíčková".data ||
        containsSub ctx "panenka".data || containsSub ctx "guláš".data ||
        containsSub ctx "kuře".data)))) := by
  have hnav : isMostlyNavigation ctx =
      decide (3 ≤ navKeywords.countP (fun k => containsSub ctx k)) := by
    unfold isMostlyNavigation
    rw [foldl_countIf]
    simp [ge_iff_le]
  have hstrong : hasStrongDailySignal ctx =
      (weekdays.any (fun w => containsSub ctx w) ||
       dateMatchSomewhere ctx ||
       decide (((scanPrices ctx).filter (fun n => 60 ≤ n && n ≤ 200)).length ≥ 2) ||
       ((containsSub ctx "polévka".data || containsSub ctx "vývar".data) &&
        (containsSub ctx "řízek".data || containsSub ctx "svíčková".data ||
         containsSub ctx "panenka".data || containsSub ctx "guláš".data ||
         containsSub ctx "kuře".data))) := by
    unfold hasStrongDailySignal
    rw [price_conjunct]
  rw [hnav, hstrong]
  by_cases h : 3 ≤ navKeywords.countP (fun k => containsSub ctx k)
  · have h2 : ¬ navKeywords.countP (fun k => containsSub ctx k) < 3 := Nat.not_lt.mpr h
    simp [h, h2]
  · have h2 : navKeywords.countP (fun k => containsSub ctx k) < 3 := Nat.not_le.mp h
    simp [h, h2]

/-- C1: for every page text, `hasDailyMenuIndicators` returns true exactly
when the spec-described three-stage condition holds: a daily-menu phrase
is found (the first, in priority order, that occurs determining the match
position), the ±400-character window around it has fewer than 3 distinct
navigation terms, and the window has at least one strong signal (weekday
name, date pattern, two or more in-range price tokens, or soup/main-dish
keyword co-occurrence). -/
theorem c1_hasDailyMenuIndicators_iff_spec (text : String) :
    hasDailyMenuIndicators text = specHasDailyMenuIndicators text := by
  unfold hasDailyMenuIndicators specHasDailyMenuIndicators
  simp only [← firstFoundPos_eq]
  cases h : firstFoundPos dailyKeywords (text.data.map jsToLower) with
  | none => rfl
  | some pos => exact window_case _

/-! ## Preference filter and recommender
(`MenuService.applyPreferencesFilter`, `MenuService.calculateRecommendedMeal`) -/

/-- The `MenuItem` type of `llm.service` (src/unnamed/part_005, lines
362-368): `price?: number; allergens?: string[] | null; weight?: string |
null; category?: string`. -/
structure MenuItem where
  name : String
  price : Option ℚ
  allergens : Option (List String)
  weight : Option String
  category : Option String
deriving DecidableEq

/-- The preferences object of `MenuService.processUrl`:
`{ price?: number; allergens?: number[] }`. -/
structure Preferences where
  price : Option ℚ
  allergens : Option (List ℚ)
deriving DecidableEq

/-- JS `Number(string)` for decimal notation: whitespace-trimmed, empty
string is `0`, optional sign, decimal digits with an optional fractional
part; everything else is `NaN` (`none`).  (Hex/exponent forms are not
modelled; allergen codes are decimal.) -/
def jsNumberQ (s : String) : Option ℚ :=
  let t := ((s.data.dropWhile isJsSpace).reverse.dropWhile isJsSpace).reverse
  match t with
  | [] => some 0
  | _ :: _ =>
    let sgn : Int × List Char :=
      match t with
      | '-' :: r => (-1, r)
      | '+' :: r => (1, r)
      | r => (1, r)
    let intPart := sgn.2.takeWhile Char.isDigit
    let rest := sgn.2.drop intPart.length
    match rest with
    | [] => if intPart = [] then none else some (mkRat (sgn.1 * natOfDigits intPart) 1)
    | '.' :: rest2 =>
      let fracPart := rest2.takeWhile Char.isDigit
      if rest2.drop fracPart.length ≠ [] then none
      else if intPart = [] ∧ fracPart = [] then none
      else some (mkRat (sgn.1 * (natOfDigits intPart * 10 ^ fracPart.length + natOfDigits fracPart))
                       (10 ^ fracPart.length))
    | _ => none

/-- The per-allergen test inside the filter callback:
`preferences.allergens!.includes(Number(allergen))`.  (`Number` of a
non-numeric string is `NaN`, and `includes` never finds `NaN` among the
JSON-sourced numeric codes, so the `none` case is `false`.) -/
def allergenHit (excluded : List ℚ) (allergen : String) : Bool :=
  match jsNumberQ allergen with
  | some n => excluded.contains n
  | none => false

/-- The price block of the filter callback (src/unnamed/part_007, lines
181-185): with a ceiling set, an undefined price or a price above the
ceiling returns false. -/
def priceBlock (pp ip : Option ℚ) : Bool :=
  match pp with
  | none => true
  | some maxPrice =>
    match ip with
    | none => false
    | some p => if p > maxPrice then false else true

/-- The allergen block of the filter callback (src/unnamed/part_007,
lines 188-199): with a non-empty exclusion list, an item whose own
non-empty allergen list contains any excluded code returns false. -/
def allergenBlock (pa : Option (List ℚ)) (ia : Option (List String)) : Bool :=
  match pa with
  | none => true
  | some excluded =>
    if excluded.length > 0 then
      match ia with
      | none => true
      | some als =>
        if als.length > 0 then
          if als.any (allergenHit excluded) then false else true
        else true
    else true

/-- The filter callback of `MenuService.applyPreferencesFilter`
(src/unnamed/part_007, lines 179-202): the price block and the allergen
block of the callback in sequence (each can return false early; reaching
the end returns true). -/
def itemPassesFilter (preferences : Preferences) (item : MenuItem) : Bool :=
  priceBlock preferences.price item.price &&
  allergenBlock preferences.allergens item.allergens

/-- `MenuService.applyPreferencesFilter` (src/unnamed/part_007, lines
175-203). -/
def applyPreferencesFilter (items : List MenuItem) (preferences : Preferences) : List MenuItem :=
  items.filter (itemPassesFilter preferences)

/-- `MenuService.calculateRecommendedMeal` (src/unnamed/part_007, lines
209-214). -/
def calculateRecommendedMeal (filteredItems : List MenuItem) : Option String :=
  match filteredItems with
  | [] => none
  | item :: _ => some item.name

/-- The claim's survival condition for the price rule: if a ceiling is
set, the item must have a defined numeric price that is at most the
ceiling. -/
def priceRuleOk (preferences : Preferences) (item : MenuItem) : Prop :=
  ∀ c, preferences.price = some c → ∃ p, item.price = some p ∧ p ≤ c

/-- The claim's survival condition for the allergen rule: if a non-empty
exclusion set is given, no allergen code of the item (compared
numerically) may lie in it; a null/absent (or empty) allergen list never
excludes. -/
def allergenRuleOk (preferences : Preferences) (item : MenuItem) : Prop :=
  ∀ ex, preferences.allergens = some ex → ex ≠ [] →
    ∀ als, item.allergens = some als →
      ∀ a ∈ als, ∀ n, jsNumberQ a = some n → n ∉ ex

theorem allergenHit_iff (excluded : List ℚ) (a : String) :
    allergenHit excluded a = true ↔ ∃ n, jsNumberQ a = some n ∧ n ∈ excluded := by
  unfold allergenHit
  cases hn : jsNumberQ a with
  | none => simp
  | some n => simp

theorem priceBlock_iff (pp ip : Option ℚ) :
    priceBlock pp ip = true ↔ (∀ c, pp = some c → ∃ p, ip = some p ∧ p ≤ c) := by
  cases pp with
  | none => simp [priceBlock]
  | some c =>
    cases ip with
    | none => simp [priceBlock]
    | some p =>
      by_cases h : p > c
      · simp [priceBlock, h, not_le.mpr h]
      · simp [priceBlock, h, not_lt.mp h]

theorem allergenBlock_iff (pa : Option (List ℚ)) (ia : Option (List String)) :
    allergenBlock pa ia = true ↔
    (∀ ex, pa = some ex → ex ≠ [] → ∀ als, ia = some als →
       ∀ a ∈ als, ∀ n, jsNumberQ a = some n → n ∉ ex) := by
  cases pa with
  | none => simp [allergenBlock]
  | some ex =>
    by_cases hne : ex = []
    · subst hne
      simp [allergenBlock]
    · rw [allergenBlock.eq_def]
      simp only []
      rw [if_pos (List.length_pos.mpr hne)]
      cases ia with
      | none => simp
      | some als =>
        cases als with
        | nil =>
          simp
        | cons a0 als0 =>
          change (if (a0 :: als0).length > 0 then
              if (a0 :: als0).any (allergenHit ex) then false else true
            else true) = true ↔ _
          rw [if_pos (by simp : (a0 :: als0).length > 0)]
          by_cases hany : (a0 :: als0).any (allergenHit ex) = true
          · rw [if_pos hany]
            obtain ⟨a, ha, hhit⟩ := List.any_eq_true.mp hany
            obtain ⟨n, hn, hmem⟩ := (allergenHit_iff ex a).mp hhit
            simp only [Bool.false_eq_true, false_iff, not_forall]
            exact ⟨ex, rfl, hne, a0 :: als0, rfl, a, ha, n, hn, fun hcon => hcon hmem⟩
          · rw [if_neg hany]
            simp only [true_iff]
            intro ex' hex' hne' als' hals' a ha n hn hmem
            cases hex'
            cases hals'
            exact hany (List.any_eq_true.mpr ⟨a, ha, (allergenHit_iff ex a).mpr ⟨n, hn, hmem⟩⟩)

theorem itemPassesFilter_iff (preferences : Preferences) (item : MenuItem) :
    itemPassesFilter preferences item = true ↔
      priceRuleOk preferences item ∧ allergenRuleOk preferences item := by
  rw [itemPassesFilter, Bool.and_eq_true]
  unfold priceRuleOk allergenRuleOk
  exact and_congr (priceBlock_iff _ _) (allergenBlock_iff _ _)

/-- C4: the preference filter and recommender behave as specified — an
empty preferences object leaves the list unchanged; an item survives the
filter exactly when it satisfies both the price rule and the allergen
rule (AND semantics); and the recommended meal is the name of the first
surviving item, or none when the filtered set is empty. -/
theorem c4_applyPreferencesFilter_spec (items : List MenuItem)
    (preferences : Preferences) (item : MenuItem) :
    applyPreferencesFilter items ⟨none, none⟩ = items ∧
    (item ∈ applyPreferencesFilter items preferences ↔
      item ∈ items ∧ priceRuleOk preferences item ∧ allergenRuleOk preferences item) ∧
    calculateRecommendedMeal (applyPreferencesFilter items preferences) =
      (applyPreferencesFilter items preferences).head?.map (fun it => it.name) := by
  refine ⟨?_, ?_, ?_⟩
  · unfold applyPreferencesFilter
    rw [List.filter_eq_self]
    intro a _
    rfl
  · unfold applyPreferencesFilter
    rw [List.mem_filter, itemPassesFilter_iff]
  · cases h : applyPreferencesFilter items preferences with
    | nil => rfl
    | cons it rest => rfl

/-- Witness for C4 on the spec's own example: items A (price 50, no
allergens) and B (price 200, allergen "7") with preferences
price ≤ 100 and excluded allergens {7} — A survives and is recommended. -/
theorem c4_witness :
    (⟨"A", some 50, none, none, none⟩ : MenuItem) ∈
      applyPreferencesFilter
        [⟨"A", some 50, none, none, none⟩, ⟨"B", some 200, some ["7"], none, none⟩]
        ⟨some 100, some [7]⟩ := by
  have h := (c4_applyPreferencesFilter_spec
    [⟨"A", some 50, none, none, none⟩, ⟨"B", some 200, some ["7"], none, none⟩]
    ⟨some 100, some [7]⟩ ⟨"A", some 50, none, none, none⟩).2.1
  refine h.mpr ⟨by simp, ?_, ?_⟩
  · intro c hc
    cases hc
    exact ⟨50, rfl, by norm_num⟩
  · intro ex hex hne als hals
    cases hals

/-! ## Restaurant-name resolver (`LLMService.extractRestaurantName`) -/

/-- JS `String.prototype.replace` with a string pattern: only the first
occurrence of `pat` is replaced by `repl` (anywhere in the string, not
only at the start). -/
def jsReplaceFirst (hay pat repl : List Char) : List Char :=
  match indexOfSub hay pat with
  | none => hay
  | some i => hay.take i ++ repl ++ hay.drop (i + pat.length)

/-- JS `host.split(".")[0]`. -/
def firstDnsLabel (cs : List Char) : List Char :=
  cs.takeWhile (fun c => c ≠ '.')

/-- `LLMService.getHostnameFallback` (src/unnamed/part_005, lines
630-637).  The `new URL(url).hostname` builtin is abstracted as the
input: `none` models a URL the URL constructor throws on (the catch
returns "unknown"). -/
def getHostnameFallback (hostname : Option String) : String :=
  match hostname with
  | none => "unknown"
  | some host => String.mk (firstDnsLabel (jsReplaceFirst host.data "www.".data []))

/-- `LLMService.isValidRestaurantName` (src/unnamed/part_005, lines
643-650). -/
def isValidRestaurantName (name : Option String) : Bool :=
  match name with
  | none => false
  | some n =>
    (n ≠ "") && (String.mk (n.data.map jsToLower) ≠ "unknown") &&
    (n.length > 0) && (n.length < 100)

/-- `LLMService.extractRestaurantName` (src/unnamed/part_005, lines
657-701).  `svc` is the outcome of the reasoning-service call: `.error`
models any thrown failure (missing API key, timeout, transport error),
`.ok` carries `response.choices[0].message.content` (null or text). -/
def extractRestaurantName (svc : Except Unit (Option String)) (hostname : Option String) : String :=
  match svc with
  | .error _ => getHostnameFallback hostname
  | .ok content =>
    let extractedName := content.map jsTrim
    if isValidRestaurantName extractedName then extractedName.getD ""
    else getHostnameFallback hostname

/-- Modelled from the spec: the fallback as the claim words it — the
page URL's hostname with a LEADING "www." stripped and only the first
DNS label kept. -/
def specHostnameFallback (hostname : Option String) : String :=
  match hostname with
  | none => "unknown"
  | some host =>
    let stripped := if headMatch "www.".data host.data then host.data.drop 4 else host.data
    String.mk (stripped.takeWhile (fun c => c ≠ '.'))

/-- The claim's acceptance condition for a service-returned name:
non-empty, shorter than 100 characters, and not equal case-insensitively
to "unknown". -/
def specNameAccepted (n : String) : Prop :=
  n ≠ "" ∧ n.length < 100 ∧ String.mk (n.data.map jsToLower) ≠ "unknown"

/-- The amended fallback: the first occurrence of "www." is removed from
anywhere in the hostname (JS `replace` semantics), then the first DNS
label is kept; "unknown" when the URL has no parseable hostname. -/
def specAmendedFallback (hostname : Option String) : String :=
  match hostname with
  | none => "unknown"
  | some host =>
    match indexOfSub host.data "www.".data with
    | none => String.mk (host.data.takeWhile (fun c => c ≠ '.'))
    | some i => String.mk ((host.data.take i ++ host.data.drop (i + 4)).takeWhile (fun c => c ≠ '.'))

theorem isValidRestaurantName_iff (n : String) :
    isValidRestaurantName (some n) = true ↔ specNameAccepted n := by
  unfold isValidRestaurantName specNameAccepted
  simp only [Bool.and_eq_true, decide_eq_true_eq, gt_iff_lt]
  constructor
  · rintro ⟨⟨⟨h1, h2⟩, _⟩, h4⟩
    exact ⟨h1, h4, h2⟩
  · rintro ⟨h1, h4, h2⟩
    have hlen : 0 < n.length := by
      rcases n with ⟨data⟩
      cases data with
      | nil => exact absurd rfl h1
      | cons c cs => simp [String.length]
    exact ⟨⟨⟨h1, h2⟩, hlen⟩, h4⟩

/-- C8 counterexample: with a failing service call and hostname
`foowww.bar.cz`, the code removes the first occurrence of "www."
anywhere in the hostname and returns "foobar", while the claim's
leading-"www."-strip fallback yields "foowww". -/
theorem c8_counterexample :
    extractRestaurantName (.error ()) (some "foowww.bar.cz") = "foobar" ∧
    specHostnameFallback (some "foowww.bar.cz") = "foowww" ∧
    extractRestaurantName (.error ()) (some "foowww.bar.cz") ≠
      specHostnameFallback (some "foowww.bar.cz") := by
  refine ⟨by decide, by decide, by decide⟩

/-- C8 (amended): `extractRestaurantName` always returns a string — the
trimmed service name exactly when it is accepted (non-empty, shorter
than 100 characters, not case-insensitively "unknown"); in every other
case (no content, rejected name, or any failure of the underlying call)
the deterministic hostname fallback, which removes the FIRST occurrence
of "www." anywhere in the hostname and keeps the first DNS label
("unknown" when the URL has no parseable hostname). -/
theorem c8_extractRestaurantName_spec (svc : Except Unit (Option String))
    (hostname : Option String) :
    (∀ c, svc = .ok (some c) → specNameAccepted (jsTrim c) →
      extractRestaurantName svc hostname = jsTrim c) ∧
    ((svc = .error () ∨ svc = .ok none ∨
      (∃ c, svc = .ok (some c) ∧ ¬ specNameAccepted (jsTrim c))) →
      extractRestaurantName svc hostname = getHostnameFallback hostname) ∧
    getHostnameFallback hostname = specAmendedFallback hostname := by
  refine ⟨?_, ?_, ?_⟩
  · intro c hc hacc
    subst hc
    show (if isValidRestaurantName ((some c).map jsTrim) then ((some c).map jsTrim).getD ""
          else getHostnameFallback hostname) = jsTrim c
    rw [show (some c).map jsTrim = some (jsTrim c) from rfl]
    rw [if_pos ((isValidRestaurantName_iff (jsTrim c)).mpr hacc)]
    rfl
  · rintro (h | h | ⟨c, hc, hrej⟩)
    · subst h; rfl
    · subst h; rfl
    · subst hc
      show (if isValidRestaurantName ((some c).map jsTrim) then ((some c).map jsTrim).getD ""
            else getHostnameFallback hostname) = getHostnameFallback hostname
      rw [show (some c).map jsTrim = some (jsTrim c) from rfl]
      rw [if_neg (fun hval => hrej ((isValidRestaurantName_iff (jsTrim c)).mp hval))]
  · cases hostname with
    | none => rfl
    | some host =>
      cases h : indexOfSub host.data "www.".data with
      | none =>
        simp [getHostnameFallback, specAmendedFallback, jsReplaceFirst, firstDnsLabel, h]
      | some i =>
        simp [getHostnameFallback, specAmendedFallback, jsReplaceFirst, firstDnsLabel, h,
          show "www.".data.length = 4 from rfl]

/-- Witness for C8: an accepted service name is returned verbatim, and a
failed call falls back to the hostname's first label with "www."
removed. -/
theorem c8_witness :
    extractRestaurantName (.ok (some "Tlustá Kachna")) (some "www.restaurace.cz") = "Tlustá Kachna" ∧
    extractRestaurantName (.error ()) (some "www.restaurace.cz") = "restaurace" := by
  constructor
  · have h := (c8_extractRestaurantName_spec (.ok (some "Tlustá Kachna"))
      (some "www.restaurace.cz")).1 "Tlustá Kachna" rfl ⟨by decide, by decide, by decide⟩
    rw [h]
    decide
  · have h := (c8_extractRestaurantName_spec (.error ())
      (some "www.restaurace.cz")).2.1 (Or.inl rfl)
    rw [h]
    decide

/-! ## Extraction pipeline (`LLMService.extractMenuRaw`, tool-calling loop)

The conversation with the reasoning service is modelled as a script: the
list of turns the service will answer with, in order.  A turn's textual
content is abstracted to its JSON parse result (`content = none` models
falsy content, i.e. null or the empty string; `some none` models text
that `JSON.parse` rejects; `some (some v)` models text parsing to `v`). -/

/-- JSON values. -/
inductive JVal where
  | jnull
  | jbool (b : Bool)
  | jnum (q : ℚ)
  | jstr (s : String)
  | jarr (elems : List JVal)
  | jobj (fields : List (String × JVal))

/-- JS property read `v[field]` on a non-null value: objects yield the
field's value, everything else yields undefined (`none`).  (JSON.parse
keeps only the last duplicate key, so parsed objects have unique keys and
first-match lookup is adequate.) -/
def propAccess (v : JVal) (field : String) : Option JVal :=
  match v with
  | .jobj fields => fields.lookup field
  | _ => none

/-- Discriminates the JSON null (the only `items` element on which the
validator's `item.name` access throws a TypeError). -/
def jIsNull : JVal → Bool
  | .jnull => true
  | _ => false

/-- The error classes thrown by `extractMenuRaw`. -/
inductive LLMError where
  | invalidJson
  | extractionFailed
  | invalidSchema
deriving DecidableEq

/-- One entry of `message.tool_calls`: its `type`, `function.name`, and
the JSON parse result of `function.arguments` (`none` = `JSON.parse`
throws). -/
structure ToolCall where
  isFunctionType : Bool
  name : String
  args : Option JVal

/-- One service turn: `message.tool_calls` (empty list models an absent
or empty array) and `message.content`. -/
structure ServiceTurn where
  tool_calls : List ToolCall
  content : Option (Option JVal)

/-- Executing one tool call (src/unnamed/part_005, lines 523-540):
only a `function`-typed call named `normalizePrice` is executed.
`JSON.parse(toolCall.function.arguments)` throwing, or `args.raw` being
read off a parsed `null`, raises (`.error`); `normalizePrice` itself is
total on every other runtime value. -/
def execToolCall (tc : ToolCall) : Except Unit Unit :=
  if tc.isFunctionType && tc.name == "normalizePrice" then
    match tc.args with
    | none => .error ()
    | some .jnull => .error ()
    | some _ => .ok ()
  else .ok ()

/-- The `for` loop over a turn's tool calls: the first throw aborts. -/
def execToolCalls : List ToolCall → Except Unit Unit
  | [] => .ok ()
  | tc :: rest =>
    match execToolCall tc with
    | .error e => .error e
    | .ok _ => execToolCalls rest

/-- The bounded conversation loop of `extractMenuRaw`
(src/unnamed/part_005, lines 505-559), returning the parsed final
response.  A turn with tool calls executes them (a thrown error is
wrapped to `ExtractionFailed` by the enclosing catch), decrements the
budget, and continues; a turn without tool calls is final: falsy or
unparseable content throws `InvalidJson`, parseable content exits the
loop.  An exhausted budget (`finalResponse` still null) and a failing
transport call (exhausted script) both end in `ExtractionFailed`. -/
def runLoop : Nat → List ServiceTurn → Except LLMError JVal
  | 0, _ => .error .extractionFailed
  | _ + 1, [] => .error .extractionFailed
  | n + 1, turn :: rest =>
    if turn.tool_calls.length > 0 then
      match execToolCalls turn.tool_calls with
      | .error _ => .error .extractionFailed
      | .ok _ => runLoop n rest
    else
      match turn.content with
      | none => .error .invalidJson
      | some none => .error .invalidJson
      | some (some v) => .ok v

/-- A field check of `validateRawMenuResponse`: true when
`!item.name || typeof item.name !== "string" || item.name.trim().length === 0`
(with the read on a non-null item). -/
def strFieldBlank (item : JVal) (field : String) : Bool :=
  match propAccess item field with
  | some (.jstr s) => jsTrim s = ""
  | _ => true

/-- The per-item loop of `validateRawMenuResponse` (src/unnamed/part_005,
lines 441-451).  Reading `item.name` off a JSON null throws a TypeError,
which the catch in `extractMenuRaw` wraps into `ExtractionFailed`; any
other item missing a non-blank string `name` or `category` throws
`InvalidSchema`. -/
def validateItems : List JVal → Except LLMError Unit
  | [] => .ok ()
  | item :: rest =>
    if jIsNull item then .error .extractionFailed
    else if strFieldBlank item "name" then .error .invalidSchema
    else if strFieldBlank item "category" then .error .invalidSchema
    else validateItems rest

/-- `LLMService.validateRawMenuResponse` (src/unnamed/part_005, lines
427-452): the parsed value must be a non-null object (arrays pass the
`typeof` test but fail the `"items" in parsed` test) with an `items`
array, and every item must pass the field checks. -/
def validateRawMenuResponse (parsed : JVal) : Except LLMError Unit :=
  match parsed with
  | .jobj fields =>
    match fields.lookup "items" with
    | some (.jarr items) => validateItems items
    | _ => .error .invalidSchema
  | _ => .error .invalidSchema

/-- JS truthiness of a parsed JSON value: `null`, `false`, `0` (also
`-0`) and the empty string are falsy; `NaN` is not JSON-representable.
Arrays and objects are always truthy. -/
def jsFalsy : JVal → Bool
  | .jnull => true
  | .jbool b => !b
  | .jnum q => decide (q = 0)
  | .jstr s => decide (s = "")
  | .jarr _ => false
  | .jobj _ => false

/-- `LLMService.extractMenuRaw` (src/unnamed/part_005, lines 503-569):
run the loop with a budget of 5; then the `if (!finalResponse)` guard
throws `ExtractionFailed` ("Max iterations reached") for a falsy final
response — which covers both an exhausted budget (`finalResponse` still
null) and a final answer that parsed to a falsy JSON value — before the
surviving truthy response is validated. -/
def extractMenuRaw (script : List ServiceTurn) : Except LLMError JVal :=
  match runLoop 5 script with
  | .error e => .error e
  | .ok finalResponse =>
    if jsFalsy finalResponse then .error .extractionFailed
    else
      match validateRawMenuResponse finalResponse with
      | .error e => .error e
      | .ok _ => .ok finalResponse

/-- A turn that the loop consumes as a successful tool-call round. -/
def goodToolTurn (t : ServiceTurn) : Prop :=
  t.tool_calls ≠ [] ∧ execToolCalls t.tool_calls = .ok ()

/-- The claim's "non-null object with an `items` array" reading of the
final response. -/
def responseItems (v : JVal) : Option (List JVal) :=
  match v with
  | .jobj fields =>
    match fields.lookup "items" with
    | some (.jarr items) => some items
    | _ => none
  | _ => none

theorem runLoop_skip (pre : List ServiceTurn) :
    ∀ (n : Nat) (rest : List ServiceTurn), (∀ u ∈ pre, goodToolTurn u) →
      pre.length ≤ n + 1 →
      runLoop (n + 1) (pre ++ rest) = runLoop (n + 1 - pre.length) rest := by
  induction pre with
  | nil =>
    intro n rest _ _
    simp
  | cons t pre ih =>
    intro n rest hgood hlen
    obtain ⟨hne, hexec⟩ := hgood t (List.mem_cons_self t pre)
    have hpos : 0 < t.tool_calls.length := List.length_pos.mpr hne
    rw [List.cons_append]
    cases n with
    | zero =>
      have hpre : pre = [] := by
        rw [List.length_cons] at hlen
        exact List.eq_nil_of_length_eq_zero (by omega)
      subst hpre
      simp only [runLoop, List.nil_append]
      rw [if_pos hpos, hexec]
    | succ m =>
      simp only [runLoop]
      rw [if_pos hpos, hexec]
      have harith : m + 1 + 1 - (t :: pre).length = m + 1 - pre.length := by
        rw [List.length_cons]
        omega
      rw [harith]
      exact ih m rest (fun u hu => hgood u (List.mem_cons_of_mem t hu))
        (by rw [List.length_cons] at hlen; omega)

theorem runLoop_final (k : Nat) (t : ServiceTurn) (rest : List ServiceTurn)
    (ht : t.tool_calls = []) :
    runLoop (k + 1) (t :: rest) =
      (match t.content with
       | none => .error .invalidJson
       | some none => .error .invalidJson
       | some (some v) => .ok v) := by
  simp only [runLoop, ht]
  rfl

theorem validateRaw_eq (v : JVal) :
    validateRawMenuResponse v =
      (match responseItems v with
       | none => .error .invalidSchema
       | some items => validateItems items) := by
  cases v with
  | jobj fields =>
    cases h : fields.lookup "items" with
    | none => simp [validateRawMenuResponse, responseItems, h]
    | some w => cases w <;> simp [validateRawMenuResponse, responseItems, h]
  | jnull => rfl
  | jbool b => rfl
  | jnum q => rfl
  | jstr s => rfl
  | jarr elems => rfl

theorem validateItems_no_null (items : List JVal)
    (hnn : ∀ it ∈ items, jIsNull it = false) :
    ((∃ it ∈ items, strFieldBlank it "name" = true ∨ strFieldBlank it "category" = true) →
       validateItems items = .error .invalidSchema) ∧
    ((∀ it ∈ items, strFieldBlank it "name" = false ∧ strFieldBlank it "category" = false) →
       validateItems items = .ok ()) := by
  induction items with
  | nil =>
    constructor
    · rintro ⟨it, hmem, _⟩
      cases hmem
    · intro _
      rfl
  | cons it rest ih =>
    have hnnit : jIsNull it = false := hnn it (List.mem_cons_self it rest)
    obtain ⟨ih1, ih2⟩ := ih (fun u hu => hnn u (List.mem_cons_of_mem it hu))
    have hstep : validateItems (it :: rest) =
        (if strFieldBlank it "name" then .error .invalidSchema
         else if strFieldBlank it "category" then .error .invalidSchema
         else validateItems rest) := by
      rw [validateItems, if_neg (by simp [hnnit])]
    cases hname : strFieldBlank it "name" with
    | true =>
      rw [hstep, if_pos hname]
      constructor
      · intro _
        rfl
      · intro hall
        exact absurd (hall it (List.mem_cons_self it rest)).1 (by simp [hname])
    | false =>
      cases hcat : strFieldBlank it "category" with
      | true =>
        rw [hstep, if_neg (by simp [hname]), if_pos hcat]
        constructor
        · intro _
          rfl
        · intro hall
          exact absurd (hall it (List.mem_cons_self it rest)).2 (by simp [hcat])
      | false =>
        rw [hstep, if_neg (by simp [hname]), if_neg (by simp [hcat])]
        constructor
        · rintro ⟨u, hu, hbad⟩
          cases hu with
          | head =>
            rcases hbad with hb | hb
            · rw [hname] at hb; exact absurd hb (by simp)
            · rw [hcat] at hb; exact absurd hb (by simp)
          | tail _ hu2 => exact ih1 ⟨u, hu2, hbad⟩
        · intro hall
          exact ih2 (fun u hu => hall u (List.mem_cons_of_mem it hu))

/-- A service turn whose final answer parses to the JSON
`{"items": [null]}`. -/
def nullItemTurn : ServiceTurn :=
  ⟨[], some (some (.jobj [("items", .jarr [.jnull])]))⟩

/-- C3 counterexample: a final answer parsing to `{"items":[null]}`
contains an item without a non-empty string `name`, yet `extractMenuRaw`
classifies it as `ExtractionFailed` — the validator's `item.name` read
throws a TypeError that the enclosing catch wraps — not `InvalidSchema`
as the claim requires. -/
theorem c3_counterexample :
    extractMenuRaw [nullItemTurn] = .error .extractionFailed ∧
    extractMenuRaw [nullItemTurn] ≠ .error .invalidSchema := by
  constructor
  · rfl
  · rw [show extractMenuRaw [nullItemTurn] = Except.error LLMError.extractionFailed from rfl]
    intro h
    simp at h

theorem responseItems_some_not_falsy (v : JVal) (items : List JVal)
    (h : responseItems v = some items) : jsFalsy v = false := by
  cases v with
  | jobj fields => rfl
  | jnull => simp [responseItems] at h
  | jbool b => simp [responseItems] at h
  | jnum q => simp [responseItems] at h
  | jstr s => simp [responseItems] at h
  | jarr elems => simp [responseItems] at h

/-- C3 (amended): after at most 4 successful tool-call turns, a
non-tool-call turn with falsy or unparseable content fails with
`InvalidJson`; 5 tool-call turns exhaust the budget and fail with
`ExtractionFailed`; a final answer that parses to a falsy JSON value
(null, false, 0, or the empty string) also fails with
`ExtractionFailed` — the `if (!finalResponse)` guard fires before
validation; a truthy parsed final answer that is not a non-null object
with an `items` array fails with `InvalidSchema`; and when all items
are non-null, any item without a non-empty string `name` or `category`
fails with `InvalidSchema`, while all-good items succeed.  (An `items`
array containing a JSON null fails with `ExtractionFailed` instead —
see the counterexample.) -/
theorem c3_extractMenuRaw_spec (pre rest : List ServiceTurn) (t : ServiceTurn) (v : JVal)
    (hpre : ∀ u ∈ pre, goodToolTurn u) :
    (pre.length ≤ 4 → t.tool_calls = [] → (t.content = none ∨ t.content = some none) →
      extractMenuRaw (pre ++ t :: rest) = .error .invalidJson) ∧
    (pre.length = 5 → extractMenuRaw (pre ++ rest) = .error .extractionFailed) ∧
    (pre.length ≤ 4 → t.tool_calls = [] → t.content = some (some v) →
      (jsFalsy v = true → extractMenuRaw (pre ++ t :: rest) = .error .extractionFailed) ∧
      (jsFalsy v = false → responseItems v = none →
        extractMenuRaw (pre ++ t :: rest) = .error .invalidSchema) ∧
      (∀ items, responseItems v = some items → (∀ it ∈ items, jIsNull it = false) →
        ((∃ it ∈ items, strFieldBlank it "name" = true ∨ strFieldBlank it "category" = true) →
          extractMenuRaw (pre ++ t :: rest) = .error .invalidSchema) ∧
        ((∀ it ∈ items, strFieldBlank it "name" = false ∧ strFieldBlank it "category" = false) →
          extractMenuRaw (pre ++ t :: rest) = .ok v))) := by
  have hloop : pre.length ≤ 4 → t.tool_calls = [] →
      runLoop 5 (pre ++ t :: rest) =
        (match t.content with
         | none => .error .invalidJson
         | some none => .error .invalidJson
         | some (some w) => .ok w) := by
    intro hlen ht
    rw [show (5 : Nat) = 4 + 1 from rfl,
      runLoop_skip pre 4 (t :: rest) hpre (by omega)]
    have h1 : 4 + 1 - pre.length = (4 - pre.length) + 1 := by omega
    rw [h1, runLoop_final (4 - pre.length) t rest ht]
  refine ⟨?_, ?_, ?_⟩
  · intro hlen ht hc
    unfold extractMenuRaw
    rw [hloop hlen ht]
    rcases hc with h | h
    · rw [h]
    · rw [h]
  · intro hlen5
    unfold extractMenuRaw
    rw [show (5 : Nat) = 4 + 1 from rfl, runLoop_skip pre 4 rest hpre (by omega),
      show 4 + 1 - pre.length = 0 from by omega]
    rfl
  · intro hlen ht hc
    have hrun : runLoop 5 (pre ++ t :: rest) = .ok v := by
      rw [hloop hlen ht, hc]
    have hextract : extractMenuRaw (pre ++ t :: rest) =
        (if jsFalsy v then .error .extractionFailed
         else
           match validateRawMenuResponse v with
           | .error e => .error e
           | .ok _ => .ok v) := by
      unfold extractMenuRaw
      rw [hrun]
    refine ⟨?_, ?_, ?_⟩
    · intro hfalsy
      rw [hextract, if_pos hfalsy]
    · intro hfalsy hnone
      rw [hextract, if_neg (by simp [hfalsy]), validateRaw_eq, hnone]
    · intro items hitems hnn
      have hfalsy : jsFalsy v = false := responseItems_some_not_falsy v items hitems
      have hextract2 : extractMenuRaw (pre ++ t :: rest) =
          (match validateRawMenuResponse v with
           | .error e => .error e
           | .ok _ => .ok v) := by
        rw [hextract, if_neg (by simp [hfalsy])]
      obtain ⟨hbad, hgood⟩ := validateItems_no_null items hnn
      have hv : validateRawMenuResponse v = validateItems items := by
        rw [validateRaw_eq, hitems]
      constructor
      · intro hex
        rw [hextract2, hv, hbad hex]
      · intro hall
        rw [hextract2, hv, hgood hall]

/-- A well-formed sample item for the C3 witness. -/
def c3SampleItem : JVal := .jobj [("name", .jstr "Polévka"), ("category", .jstr "polévka")]

/-- A well-formed sample final answer for the C3 witness. -/
def c3SampleFinal : JVal := .jobj [("items", .jarr [c3SampleItem])]

/-- A successful tool-call turn for the C3 witness. -/
def c3ToolTurn : ServiceTurn :=
  ⟨[⟨true, "normalizePrice", some (.jobj [("raw", .jstr "145,-")])⟩], none⟩

/-- The final turn of the C3 witness script. -/
def c3FinalTurn : ServiceTurn := ⟨[], some (some c3SampleFinal)⟩

/-- Witness for C3: one successful tool-call round followed by a
schema-conformant final answer succeeds with that answer, and a final
answer parsing to the falsy JSON null fails with `ExtractionFailed`. -/
theorem c3_witness :
    extractMenuRaw [c3ToolTurn, c3FinalTurn] = .ok c3SampleFinal ∧
    extractMenuRaw [(⟨[], some (some .jnull)⟩ : ServiceTurn)] = .error .extractionFailed := by
  have hpre : ∀ u ∈ [c3ToolTurn], goodToolTurn u := by
    intro u hu
    rw [List.mem_singleton] at hu
    subst hu
    exact ⟨by simp [c3ToolTurn], rfl⟩
  have h := (c3_extractMenuRaw_spec [c3ToolTurn] [] c3FinalTurn c3SampleFinal hpre).2.2
    (by simp) rfl rfl
  have hnn : ∀ it ∈ [c3SampleItem], jIsNull it = false := by
    intro it hit
    rw [List.mem_singleton] at hit
    subst hit
    rfl
  have hall : ∀ it ∈ [c3SampleItem],
      strFieldBlank it "name" = false ∧ strFieldBlank it "category" = false := by
    intro it hit
    rw [List.mem_singleton] at hit
    subst hit
    exact ⟨by decide, by decide⟩
  refine ⟨(h.2.2 [c3SampleItem] rfl hnn).2 hall, ?_⟩
  have hfin := (c3_extractMenuRaw_spec [] [] (⟨[], some (some .jnull)⟩ : ServiceTurn)
    JVal.jnull (by intro u hu; cases hu)).2.2 (by simp) rfl rfl
  exact hfin.1 rfl

/-! ## Date-scoped cache (`CacheService`, src/src/services/cache.service.ts) -/

/-- One row of the `menu_cache` table.  The serialized `data` column is
abstracted to its JSON parse result: `some payload` for a payload that
deserializes, `none` for a corrupted entry `JSON.parse` rejects. -/
structure CacheRow (α : Type) where
  id : Nat
  url : String
  date : String
  data : Option α
deriving DecidableEq

/-- The cache service's state: `db = none` models the store being absent
(before `init()` or after `close()`); `nextId` models the autoincrement
counter behind the `id` primary key. -/
structure CacheState (α : Type) where
  db : Option (List (CacheRow α))
  nextId : Nat
deriving DecidableEq

/-- The error classes of the cache service's errors module. -/
inductive CacheErr where
  | notInitialized
  | initFailed
  | readFailed
  | writeFailed
  | invalidateFailed
  | closeFailed
deriving DecidableEq

/-- The `WHERE url = ? AND date = ?` predicate. -/
def keyMatch (url date : String) (r : CacheRow α) : Bool :=
  r.url == url && r.date == date

/-- `CacheService.getCachedMenu` (cache.service.ts, lines 73-106).
`getDb()` throwing `NotInitializedError` is caught by this operation's
own catch and re-wrapped as `ReadFailedError`; a row whose payload does
not parse is deleted (`DELETE FROM menu_cache WHERE id = ?`) and null is
returned instead of an error. -/
def getCachedMenu (st : CacheState α) (url date : String) :
    Except CacheErr (Option α × CacheState α) :=
  match st.db with
  | none => .error .readFailed
  | some rows =>
    match rows.find? (keyMatch url date) with
    | none => .ok (none, st)
    | some row =>
      match row.data with
      | some parsed => .ok (some parsed, st)
      | none => .ok (none, ⟨some (rows.filter (fun r => r.id ≠ row.id)), st.nextId⟩)

/-- `CacheService.saveMenuToCache` (cache.service.ts, lines 111-129):
`INSERT OR REPLACE` keyed on `UNIQUE(url, date)` — the conflicting row is
deleted and a fresh row inserted; on an absent store the internal
`NotInitializedError` is re-wrapped as `WriteFailedError`. -/
def saveMenuToCache (st : CacheState α) (url date : String) (data : α) :
    Except CacheErr (CacheState α) :=
  match st.db with
  | none => .error .writeFailed
  | some rows =>
    .ok ⟨some (rows.filter (fun r => !(keyMatch url date r)) ++
               [⟨st.nextId, url, date, some data⟩]), st.nextId + 1⟩

/-- `CacheService.invalidateOldRecords` (cache.service.ts, lines
140-161): `DELETE FROM menu_cache WHERE date < ?` with today's date (the
clock is passed in as `today`); on an absent store the internal
`NotInitializedError` is re-wrapped as `InvalidateFailedError`.
(Lexicographic string comparison matches SQLite's byte-wise TEXT
comparison on `YYYY-MM-DD` dates.) -/
def invalidateOldRecords (st : CacheState α) (today : String) :
    Except CacheErr (CacheState α) :=
  match st.db with
  | none => .error .invalidateFailed
  | some rows => .ok ⟨some (rows.filter (fun r => !(decide (r.date < today)))), st.nextId⟩

/-- `CacheService.close` (cache.service.ts, lines 163-176): releases the
store; with no store it is a no-op — either way the state is
uninitialized-equivalent afterwards.  (A failing `db.close()` is not
modelled.) -/
def closeCache (st : CacheState α) : CacheState α :=
  ⟨none, st.nextId⟩

theorem keyMatch_iff (url date : String) (r : CacheRow α) :
    keyMatch url date r = true ↔ r.url = url ∧ r.date = date := by
  unfold keyMatch
  simp

/-- C2: on an initialized cache whose rows are unique on (url, date), a
record is returned only from a row with exactly the requested key (so a
record stored under another date is never returned, and a hit leaves the
state unchanged), and a corrupted payload under the exact key yields
not-found with the row deleted — an immediately repeated read also
yields not-found without error, and no row under that key remains. -/
theorem c2_getCachedMenu_spec {α : Type} (st : CacheState α)
    (rows : List (CacheRow α)) (url date : String)
    (hdb : st.db = some rows)
    (hkeys : ∀ r1 ∈ rows, ∀ r2 ∈ rows, r1.url = r2.url → r1.date = r2.date → r1 = r2) :
    (∀ v st2, getCachedMenu st url date = .ok (some v, st2) →
       st2 = st ∧ ∃ r ∈ rows, r.url = url ∧ r.date = date ∧ r.data = some v) ∧
    (∀ r ∈ rows, r.url = url → r.date = date → r.data = none →
       ∃ st2, getCachedMenu st url date = .ok (none, st2) ∧
         getCachedMenu st2 url date = .ok (none, st2) ∧
         ∀ rows2, st2.db = some rows2 → ∀ r2 ∈ rows2, ¬(r2.url = url ∧ r2.date = date)) := by
  have hget : getCachedMenu st url date =
      (match rows.find? (keyMatch url date) with
       | none => .ok (none, st)
       | some row =>
         match row.data with
         | some parsed => .ok (some parsed, st)
         | none => .ok (none, ⟨some (rows.filter (fun r => r.id ≠ row.id)), st.nextId⟩)) := by
    unfold getCachedMenu
    rw [hdb]
  constructor
  · intro v st2 h
    rw [hget] at h
    cases hfind : rows.find? (keyMatch url date) with
    | none =>
      simp only [hfind] at h
      simp at h
    | some row =>
      have hmem : row ∈ rows := List.mem_of_find?_eq_some hfind
      have hkey : keyMatch url date row = true := List.find?_some hfind
      obtain ⟨hurl, hdate⟩ := (keyMatch_iff url date row).mp hkey
      cases hdata : row.data with
      | none =>
        simp only [hfind, hdata] at h
        simp at h
      | some parsed =>
        simp only [hfind, hdata] at h
        simp only [Except.ok.injEq, Prod.mk.injEq, Option.some.injEq] at h
        obtain ⟨hv, hst⟩ := h
        exact ⟨hst.symm, row, hmem, hurl, hdate, by rw [hdata, hv]⟩
  · intro r hr hurl hdate hdata
    have hfound : (rows.find? (keyMatch url date)).isSome := by
      rw [List.find?_isSome]
      exact ⟨r, hr, (keyMatch_iff url date r).mpr ⟨hurl, hdate⟩⟩
    obtain ⟨row, hfind⟩ := Option.isSome_iff_exists.mp hfound
    have hmem : row ∈ rows := List.mem_of_find?_eq_some hfind
    have hkey := (keyMatch_iff url date row).mp (List.find?_some hfind)
    have hrow : row = r := hkeys row hmem r hr (by rw [hkey.1, hurl]) (by rw [hkey.2, hdate])
    subst hrow
    refine ⟨⟨some (rows.filter (fun x => x.id ≠ row.id)), st.nextId⟩, ?_, ?_, ?_⟩
    · rw [hget]
      simp only [hfind, hdata]
    · have hnone : (rows.filter (fun x => x.id ≠ row.id)).find? (keyMatch url date) = none := by
        rw [List.find?_eq_none]
        intro x hx hkx
        obtain ⟨hxmem, hxid⟩ := List.mem_filter.mp hx
        obtain ⟨hxu, hxd⟩ := (keyMatch_iff url date x).mp hkx
        have hxr : x = row := hkeys x hxmem row hmem (by rw [hxu, hkey.1]) (by rw [hxd, hkey.2])
        subst hxr
        simp at hxid
      simp only [getCachedMenu, hnone]
    · intro rows2 hrows2 r2 hr2 hkey2
      have hrows2eq : rows2 = rows.filter (fun x => x.id ≠ row.id) := by
        have h2 : some (rows.filter (fun x => x.id ≠ row.id)) = some rows2 := hrows2
        injection h2 with h3
        exact h3.symm
      subst hrows2eq
      obtain ⟨hxmem, hxid⟩ := List.mem_filter.mp hr2
      have hr2row : r2 = row :=
        hkeys r2 hxmem row hmem (by rw [hkey2.1, hkey.1]) (by rw [hkey2.2, hkey.2])
      subst hr2row
      simp at hxid

/-- Witness for C2: a store holding one corrupted row under the exact
key yields not-found, and the repeated read also yields not-found. -/
theorem c2_witness :
    ∃ st2 : CacheState Nat,
      getCachedMenu (⟨some [⟨1, "https://r.cz", "2025-11-24", none⟩], 2⟩ : CacheState Nat)
        "https://r.cz" "2025-11-24" = .ok (none, st2) ∧
      getCachedMenu st2 "https://r.cz" "2025-11-24" = .ok (none, st2) := by
  have hkeys : ∀ r1 ∈ [(⟨1, "https://r.cz", "2025-11-24", none⟩ : CacheRow Nat)],
      ∀ r2 ∈ [(⟨1, "https://r.cz", "2025-11-24", none⟩ : CacheRow Nat)],
      r1.url = r2.url → r1.date = r2.date → r1 = r2 := by
    intro r1 h1 r2 h2 _ _
    rw [List.mem_singleton] at h1 h2
    rw [h1, h2]
  have h := (c2_getCachedMenu_spec
      (⟨some [⟨1, "https://r.cz", "2025-11-24", none⟩], 2⟩ : CacheState Nat)
      [⟨1, "https://r.cz", "2025-11-24", none⟩] "https://r.cz" "2025-11-24" rfl hkeys).2
      ⟨1, "https://r.cz", "2025-11-24", none⟩ (by simp) rfl rfl rfl
  obtain ⟨st2, h1, h2, _⟩ := h
  exact ⟨st2, h1, h2⟩

/-- C9 counterexample: on an uninitialized cache the operations do NOT
raise `NotInitialized` outward — each operation's catch re-wraps the
internal `NotInitializedError` (a `BaseAppError`, hence an `Error`) into
its own failure class: `ReadFailed`, `WriteFailed`, `InvalidateFailed`. -/
theorem c9_counterexample :
    getCachedMenu (⟨none, 0⟩ : CacheState Nat) "https://r.cz" "2025-11-24" =
      .error .readFailed ∧
    saveMenuToCache (⟨none, 0⟩ : CacheState Nat) "https://r.cz" "2025-11-24" 7 =
      .error .writeFailed ∧
    invalidateOldRecords (⟨none, 0⟩ : CacheState Nat) "2025-11-24" =
      .error .invalidateFailed ∧
    getCachedMenu (⟨none, 0⟩ : CacheState Nat) "https://r.cz" "2025-11-24" ≠
      .error .notInitialized := by
  refine ⟨rfl, rfl, rfl, ?_⟩
  rw [show getCachedMenu (⟨none, 0⟩ : CacheState Nat) "https://r.cz" "2025-11-24" =
    Except.error CacheErr.readFailed from rfl]
  intro h
  simp at h

/-- C9 (amended): every cache operation on an absent store — before
`init()` or after `close()` — fails, but with the operation's own
wrapped classification (`ReadFailed`, `WriteFailed`, `InvalidateFailed`):
the internal `NotInitialized` error never escapes. -/
theorem c9_cache_uninitialized_spec {α : Type} (st st0 : CacheState α)
    (url date today : String) (payload : α) (hdb : st.db = none) :
    (getCachedMenu st url date = .error .readFailed ∧
     saveMenuToCache st url date payload = .error .writeFailed ∧
     invalidateOldRecords st today = .error .invalidateFailed) ∧
    (getCachedMenu (closeCache st0) url date = .error .readFailed ∧
     saveMenuToCache (closeCache st0) url date payload = .error .writeFailed ∧
     invalidateOldRecords (closeCache st0) today = .error .invalidateFailed) := by
  refine ⟨⟨?_, ?_, ?_⟩, rfl, rfl, rfl⟩
  · unfold getCachedMenu
    rw [hdb]
  · unfold saveMenuToCache
    rw [hdb]
  · unfold invalidateOldRecords
    rw [hdb]

/-- Witness for C9: the amended statement instantiated on a concrete
uninitialized store and a concrete store being closed. -/
theorem c9_witness :
    saveMenuToCache (⟨none, 3⟩ : CacheState Nat) "https://r.cz" "2025-11-24" 7 =
      .error .writeFailed ∧
    invalidateOldRecords (closeCache (⟨some [], 3⟩ : CacheState Nat)) "2025-11-24" =
      .error .invalidateFailed := by
  have h := c9_cache_uninitialized_spec (⟨none, 3⟩ : CacheState Nat)
    (⟨some [], 3⟩ : CacheState Nat) "https://r.cz" "2025-11-24" "2025-11-24" 7 rfl
  exact ⟨h.1.2.1, h.2.2.2⟩

/-! ## Orchestrator (`MenuService.processUrl`, src/unnamed/part_007)

The two external collaborators the orchestrator awaits are provided as an
environment: the scraper's outcome and the LLM service's `extractMenu`
outcome (`extractRestaurantName` never fails outward, so its result is a
plain string).  Attempted `saveMenuToCache` invocations are collected in
`saves` and `extractMenu` invocations are counted in `extractCalls`. -/

/-- The `extraction_status` field of `RestaurantMenu`
(src/src/types/api.types.ts, line 13). -/
inductive ExtractionStatus where
  | success
  | no_daily_menu
deriving DecidableEq

/-- `RestaurantMenu` (src/src/types/api.types.ts, lines 8-15). -/
structure RestaurantMenu where
  restaurant_name : String
  date : String
  day_of_week : String
  menu_items : List MenuItem
  extraction_status : ExtractionStatus
  recommendedMeal : Option String
deriving DecidableEq

/-- `MenuResponse` of the LLM service. -/
structure MenuResponse where
  items : List MenuItem
deriving DecidableEq

/-- Failures `processUrl` can propagate. -/
inductive OrchError where
  | cacheErr (e : CacheErr)
  | scrapeErr
  | llmErr (e : LLMError)
deriving DecidableEq

/-- The external collaborators of one `processUrl` run. -/
structure Env where
  scraped : Except Unit (String × String)
  menu : Except LLMError MenuResponse
  restaurantName : String

/-- The observable outcome of one `processUrl` run: its returned value,
the final cache state, the attempted cache writes (with their payloads),
and how many times the menu-extraction pipeline was invoked. -/
structure OrchResult where
  res : Except OrchError RestaurantMenu
  cache : CacheState RestaurantMenu
  saves : List (String × String × RestaurantMenu)
  extractCalls : Nat

/-- `MenuService.processUrl` (src/unnamed/part_007, lines 40-167). -/
def processUrl (st : CacheState RestaurantMenu) (env : Env) (url date day : String)
    (preferences : Option Preferences) : OrchResult :=
  match getCachedMenu st url date with
  | .error e => ⟨.error (.cacheErr e), st, [], 0⟩
  | .ok (some cachedResult, st1) =>
    match preferences with
    | some prefs =>
      let filteredItems := applyPreferencesFilter cachedResult.menu_items prefs
      ⟨.ok { cachedResult with
               menu_items := filteredItems,
               recommendedMeal := calculateRecommendedMeal filteredItems },
       st1, [], 0⟩
    | none => ⟨.ok { cachedResult with recommendedMeal := none }, st1, [], 0⟩
  | .ok (none, st1) =>
    match env.scraped with
    | .error _ => ⟨.error .scrapeErr, st1, [], 0⟩
    | .ok (_html, text) =>
      if hasDailyMenuIndicators text then
        match env.menu with
        | .error e => ⟨.error (.llmErr e), st1, [], 1⟩
        | .ok menuResponse =>
          let extractionStatus : ExtractionStatus :=
            if menuResponse.items.length = 0 then .no_daily_menu else .success
          let finalItems :=
            match preferences with
            | some prefs => applyPreferencesFilter menuResponse.items prefs
            | none => menuResponse.items
          let recommendedMeal :=
            match preferences with
            | some _ => calculateRecommendedMeal finalItems
            | none => none
          let restaurantMenu : RestaurantMenu :=
            ⟨env.restaurantName, date, day, finalItems, extractionStatus, recommendedMeal⟩
          let menuToCache : RestaurantMenu :=
            ⟨env.restaurantName, date, day, menuResponse.items, extractionStatus, none⟩
          match saveMenuToCache st1 url date menuToCache with
          | .error e => ⟨.error (.cacheErr e), st1, [(url, date, menuToCache)], 1⟩
          | .ok st2 => ⟨.ok restaurantMenu, st2, [(url, date, menuToCache)], 1⟩
      else
        let emptyMenu : RestaurantMenu :=
          ⟨env.restaurantName, date, day, [], .no_daily_menu, none⟩
        match saveMenuToCache st1 url date emptyMenu with
        | .error e => ⟨.error (.cacheErr e), st1, [(url, date, emptyMenu)], 0⟩
        | .ok st2 => ⟨.ok emptyMenu, st2, [(url, date, emptyMenu)], 0⟩

/-- C6: every record the orchestrator hands to `saveMenuToCache` stores
`recommendedMeal` as null and an unfiltered item set — the empty list on
classifier rejection, or exactly the extraction result's items —
whatever preferences are supplied; preference filtering only shapes the
returned response. -/
theorem c6_cache_stores_unfiltered (st : CacheState RestaurantMenu) (env : Env)
    (url date day : String) (preferences : Option Preferences)
    (s : String × String × RestaurantMenu)
    (hs : s ∈ (processUrl st env url date day preferences).saves) :
    s.2.2.recommendedMeal = none ∧
    (s.2.2.menu_items = [] ∨
     ∃ m, env.menu = .ok m ∧ s.2.2.menu_items = m.items) := by
  unfold processUrl at hs
  cases hcache : getCachedMenu st url date with
  | error e =>
    simp only [hcache] at hs
    simp at hs
  | ok pr =>
    obtain ⟨cachedOpt, st1⟩ := pr
    cases cachedOpt with
    | some cached =>
      cases preferences with
      | some prefs =>
        simp only [hcache] at hs
        simp at hs
      | none =>
        simp only [hcache] at hs
        simp at hs
    | none =>
      cases hscrape : env.scraped with
      | error u =>
        simp only [hcache, hscrape] at hs
        simp at hs
      | ok pr2 =>
        obtain ⟨html, text⟩ := pr2
        cases hind : hasDailyMenuIndicators text with
        | false =>
          simp only [hcache, hscrape, hind] at hs
          cases hsave : saveMenuToCache st1 url date
              ⟨env.restaurantName, date, day, [], .no_daily_menu, none⟩ with
          | error e =>
            simp only [hsave] at hs
            simp at hs
            rw [hs]
            exact ⟨rfl, Or.inl rfl⟩
          | ok st2 =>
            simp only [hsave] at hs
            simp at hs
            rw [hs]
            exact ⟨rfl, Or.inl rfl⟩
        | true =>
          simp only [hcache, hscrape, hind] at hs
          cases hmenu : env.menu with
          | error e =>
            simp only [hmenu] at hs
            simp at hs
          | ok menuResponse =>
            simp only [hmenu] at hs
            cases hsave : saveMenuToCache st1 url date
                ⟨env.restaurantName, date, day, menuResponse.items,
                 if menuResponse.items.length = 0 then .no_daily_menu else .success,
                 none⟩ with
            | error e =>
              simp only [hsave] at hs
              simp at hs
              rw [hs]
              exact ⟨rfl, Or.inr ⟨menuResponse, rfl, rfl⟩⟩
            | ok st2 =>
              simp only [hsave] at hs
              simp at hs
              rw [hs]
              exact ⟨rfl, Or.inr ⟨menuResponse, rfl, rfl⟩⟩

/-- The à-la-carte page text of the integration test: the classifier
rejects it (keyword "polední menu" etc. absent). -/
def rejectPageText : String := "Jídelní lístek Stálá nabídka Polévka 45,- Hlavní jídlo 150,-"

/-- A sample environment: the scraper returns the à-la-carte page and
the name resolver returns a fixed name. -/
def sampleEnv : Env := ⟨.ok ("<html>", rejectPageText), .ok ⟨[]⟩, "À la Carte Restaurant"⟩

/-- The record the rejection path builds and persists for the sample
environment. -/
def alacarteMenu : RestaurantMenu :=
  ⟨"À la Carte Restaurant", "2025-11-23", "Neděle", [], .no_daily_menu, none⟩

/-- A cached record for the C10 witness. -/
def hitMenu : RestaurantMenu := ⟨"R", "2025-11-24", "Pondělí", [], .success, none⟩

/-- Witness for C6: on the concrete rejection run, the single persisted
record has a null recommendation and the empty (unfiltered) item set. -/
theorem c6_witness :
    (("https://alacarte-restaurace.cz", "2025-11-23", alacarteMenu) :
        String × String × RestaurantMenu).2.2.recommendedMeal = none ∧
    ((("https://alacarte-restaurace.cz", "2025-11-23", alacarteMenu) :
        String × String × RestaurantMenu).2.2.menu_items = [] ∨
     ∃ m, sampleEnv.menu = .ok m ∧
       (("https://alacarte-restaurace.cz", "2025-11-23", alacarteMenu) :
        String × String × RestaurantMenu).2.2.menu_items = m.items) := by
  have hs : ("https://alacarte-restaurace.cz", "2025-11-23", alacarteMenu) ∈
      (processUrl (⟨some [], 0⟩ : CacheState RestaurantMenu) sampleEnv
        "https://alacarte-restaurace.cz" "2025-11-23" "Neděle" none).saves := by
    rw [show (processUrl (⟨some [], 0⟩ : CacheState RestaurantMenu) sampleEnv
        "https://alacarte-restaurace.cz" "2025-11-23" "Neděle" none).saves =
      [("https://alacarte-restaurace.cz", "2025-11-23", alacarteMenu)] from rfl]
    exact List.mem_singleton.mpr rfl
  exact c6_cache_stores_unfiltered (⟨some [], 0⟩ : CacheState RestaurantMenu) sampleEnv
    "https://alacarte-restaurace.cz" "2025-11-23" "Neděle" none
    ("https://alacarte-restaurace.cz", "2025-11-23", alacarteMenu) hs

/-- C7 evaluation at the failing input: on a cache miss whose page text
the classifier rejects, `processUrl` resolves the name, never invokes
the extraction pipeline, persists the record, and returns menu_items = []
with recommendedMeal = null — but the response carries
`extraction_status = "no_daily_menu"`; the `RestaurantMenu` type has no
boolean `daily_menu` field, contrary to the claim (and to the repo's
README and integration tests, which expect `daily_menu: false`). -/
theorem c7_classifier_reject_evaluation :
    (processUrl (⟨some [], 0⟩ : CacheState RestaurantMenu) sampleEnv
        "https://alacarte-restaurace.cz" "2025-11-23" "Neděle" none).res =
      .ok alacarteMenu ∧
    alacarteMenu.extraction_status = .no_daily_menu ∧
    alacarteMenu.menu_items = [] ∧
    alacarteMenu.recommendedMeal = none ∧
    alacarteMenu.restaurant_name = sampleEnv.restaurantName ∧
    (processUrl (⟨some [], 0⟩ : CacheState RestaurantMenu) sampleEnv
        "https://alacarte-restaurace.cz" "2025-11-23" "Neděle" none).extractCalls = 0 ∧
    (processUrl (⟨some [], 0⟩ : CacheState RestaurantMenu) sampleEnv
        "https://alacarte-restaurace.cz" "2025-11-23" "Neděle" none).saves =
      [("https://alacarte-restaurace.cz", "2025-11-23", alacarteMenu)] := by
  refine ⟨rfl, rfl, rfl, rfl, rfl, rfl, rfl⟩

theorem getCachedMenu_hit_state {α : Type} (st : CacheState α) (url date : String)
    (v : α) (st2 : CacheState α)
    (h : getCachedMenu st url date = .ok (some v, st2)) : st2 = st := by
  unfold getCachedMenu at h
  cases hdb : st.db with
  | none =>
    simp only [hdb] at h
    simp at h
  | some rows =>
    simp only [hdb] at h
    cases hfind : rows.find? (keyMatch url date) with
    | none =>
      simp only [hfind] at h
      simp at h
    | some row =>
      cases hdata : row.data with
      | none =>
        simp only [hfind, hdata] at h
        simp at h
      | some parsed =>
        simp only [hfind, hdata] at h
        simp only [Except.ok.injEq, Prod.mk.injEq, Option.some.injEq] at h
        exact h.2.symm

/-- C10: whenever the cache lookup returns a record, `processUrl` makes
no `saveMenuToCache` call at all — with or without preferences — the
final cache state is the incoming one, and extraction is not invoked. -/
theorem c10_cache_hit_no_write (st : CacheState RestaurantMenu) (env : Env)
    (url date day : String) (preferences : Option Preferences)
    (v : RestaurantMenu) (st1 : CacheState RestaurantMenu)
    (hhit : getCachedMenu st url date = .ok (some v, st1)) :
    (processUrl st env url date day preferences).saves = [] ∧
    (processUrl st env url date day preferences).cache = st ∧
    (processUrl st env url date day preferences).extractCalls = 0 := by
  have hst : st1 = st := getCachedMenu_hit_state st url date v st1 hhit
  unfold processUrl
  cases preferences with
  | some prefs =>
    simp only [hhit]
    exact ⟨trivial, hst, trivial⟩
  | none =>
    simp only [hhit]
    exact ⟨trivial, hst, trivial⟩

/-- Witness for C10: a concrete cache hit makes no write and leaves the
store untouched. -/
theorem c10_witness :
    (processUrl (⟨some [⟨1, "https://r.cz", "2025-11-24", some hitMenu⟩], 2⟩ :
        CacheState RestaurantMenu) sampleEnv
      "https://r.cz" "2025-11-24" "Pondělí" none).saves = [] ∧
    (processUrl (⟨some [⟨1, "https://r.cz", "2025-11-24", some hitMenu⟩], 2⟩ :
        CacheState RestaurantMenu) sampleEnv
      "https://r.cz" "2025-11-24" "Pondělí" none).cache =
      ⟨some [⟨1, "https://r.cz", "2025-11-24", some hitMenu⟩], 2⟩ := by
  have h := c10_cache_hit_no_write
    (⟨some [⟨1, "https://r.cz", "2025-11-24", some hitMenu⟩], 2⟩ : CacheState RestaurantMenu)
    sampleEnv "https://r.cz" "2025-11-24" "Pondělí" none hitMenu
    (⟨some [⟨1, "https://r.cz", "2025-11-24", some hitMenu⟩], 2⟩ : CacheState RestaurantMenu)
    rfl
  exact ⟨h.1, h.2.1⟩

end MenuSummarizer
